import Mathlib

/-
Verification of the streaming anomaly-detection core in AnomalyDetection.py.

Two complementary shallow embeddings are used.

The stats model (PFloat, RunningStats, update_mean_std, statsTick, runStats)
embeds the module-level globals window, mean, std_dev and the function
update_mean_std, together with the per-tick orchestration step
window.append(new_value); update_mean_std(new_value) from
run_anomaly_detection. Values are modelled by PFloat, a tagged float type
over the reals that carries the non-finite values nan, inf and ninf with
IEEE-754 propagation rules, so that the behaviour on NaN and Infinity
inputs is expressible; np.sqrt forces this model to live over the reals.

The series model (SeriesState, detect_anomaly, clean_old_data,
clean_old_anomalies, seriesTick, runSeries) embeds the per-tick deque
bookkeeping of run_anomaly_detection over exact rationals so that concrete
runs evaluate by decide: the deques data_x, data_y, anomaly_x, anomaly_y,
anomaly_labels (each of maxlen DISPLAY_DURATION), the classifier
detect_anomaly, the eviction loops, and the tick counter. The two halves of
the loop body are independent in the source: the statistics feed nothing
into the series bookkeeping and conversely, so they are embedded as two
state machines driven by the same input stream.
-/

namespace AnomalyPy

/-- Constant WINDOW_SIZE = 40 from the source (window size for the moving
average and the time-eviction horizon). -/
def WINDOW_SIZE : ℕ := 40

/-- Constant LOWER_BOUND = -20 from the source. -/
def LOWER_BOUND : ℚ := -20

/-- Constant UPPER_BOUND = 20 from the source. -/
def UPPER_BOUND : ℚ := 20

/-- Constant DISPLAY_DURATION = 40 from the source (maxlen of the display
deques). -/
def DISPLAY_DURATION : ℕ := 40

/-- Python float values: a finite real, or one of the non-finite values
nan, inf, ninf (negative infinity). -/
inductive PFloat where
  | num (x : ℝ)
  | nan
  | inf
  | ninf

namespace PFloat

/-- Python float addition with IEEE-754 rules for non-finite operands. -/
def add : PFloat → PFloat → PFloat
  | num a, num b => num (a + b)
  | num _, inf => inf
  | num _, ninf => ninf
  | num _, nan => nan
  | inf, num _ => inf
  | inf, inf => inf
  | inf, ninf => nan
  | inf, nan => nan
  | ninf, num _ => ninf
  | ninf, inf => nan
  | ninf, ninf => ninf
  | ninf, nan => nan
  | nan, _ => nan

/-- Python float subtraction with IEEE-754 rules for non-finite operands. -/
def sub : PFloat → PFloat → PFloat
  | num a, num b => num (a - b)
  | num _, inf => ninf
  | num _, ninf => inf
  | num _, nan => nan
  | inf, num _ => inf
  | inf, inf => nan
  | inf, ninf => inf
  | inf, nan => nan
  | ninf, num _ => ninf
  | ninf, inf => ninf
  | ninf, ninf => nan
  | ninf, nan => nan
  | nan, _ => nan

open Classical in
/-- Python float multiplication with IEEE-754 rules for non-finite
operands. -/
noncomputable def mul : PFloat → PFloat → PFloat
  | num a, num b => num (a * b)
  | num a, inf => if a = 0 then nan else if 0 < a then inf else ninf
  | num a, ninf => if a = 0 then nan else if 0 < a then ninf else inf
  | num _, nan => nan
  | inf, num b => if b = 0 then nan else if 0 < b then inf else ninf
  | inf, inf => inf
  | inf, ninf => ninf
  | inf, nan => nan
  | ninf, num b => if b = 0 then nan else if 0 < b then ninf else inf
  | ninf, inf => ninf
  | ninf, ninf => inf
  | ninf, nan => nan
  | nan, _ => nan

open Classical in
/-- Python float division with IEEE-754 rules for non-finite operands.
Python raises ZeroDivisionError on division of a finite float by zero; that
case is unreachable in this development (the divisors are n + 1 with n a
list length, and n with 1 < n) and is mapped to nan here. -/
noncomputable def div : PFloat → PFloat → PFloat
  | num a, num b => if b = 0 then nan else num (a / b)
  | num _, inf => num 0
  | num _, ninf => num 0
  | num _, nan => nan
  | inf, num b => if 0 ≤ b then inf else ninf
  | inf, inf => nan
  | inf, ninf => nan
  | inf, nan => nan
  | ninf, num b => if 0 ≤ b then ninf else inf
  | ninf, inf => nan
  | ninf, ninf => nan
  | ninf, nan => nan
  | nan, _ => nan

open Classical in
/-- Model of np.sqrt on Python floats: nan on negative or nan input, inf on
inf. -/
noncomputable def sqrt : PFloat → PFloat
  | num a => if a < 0 then nan else num (Real.sqrt a)
  | inf => inf
  | ninf => nan
  | nan => nan

open Classical in
/-- Python float strict comparison: every comparison with nan is false. -/
noncomputable def lt : PFloat → PFloat → Bool
  | num a, num b => decide (a < b)
  | num _, inf => true
  | num _, ninf => false
  | num _, nan => false
  | inf, _ => false
  | ninf, num _ => true
  | ninf, inf => true
  | ninf, ninf => false
  | ninf, nan => false
  | nan, _ => false

end PFloat

/-- Append x at the tail of a deque of maxlen cap: when the deque is full
the oldest (head) entries beyond the capacity are dropped on insert. -/
def appendCap {α : Type} (cap : ℕ) (x : α) (xs : List α) : List α :=
  ((xs ++ [x]).drop ((xs ++ [x]).length - cap))

/-- The module-level mutable state of the source: the deque window
(maxlen WINDOW_SIZE) and the globals mean and std_dev. -/
structure RunningStats where
  window : List PFloat
  mean : PFloat
  std_dev : PFloat

/-- Initial state from the source: window = deque(maxlen=WINDOW_SIZE),
mean = 0, std_dev = 1. -/
def initStats : RunningStats := ⟨[], .num 0, .num 1⟩

/-- Embedding of update_mean_std (source lines 18 to 36): n is the current
length of the window; with n = 0 the mean becomes the new value and
std_dev becomes 0; otherwise mean is moved by delta / (n + 1), the old
std_dev is used as an accumulator and the new std_dev is
sqrt(accumulator / n) when n > 1 and the fixed fallback 1 otherwise. -/
noncomputable def update_mean_std (s : RunningStats) (new_value : PFloat) :
    RunningStats :=
  let n := s.window.length
  if n = 0 then
    { s with mean := new_value, std_dev := .num 0 }
  else
    let old_mean := s.mean
    let mean := PFloat.add old_mean
      (PFloat.div (PFloat.sub new_value old_mean) (.num ((n : ℝ) + 1)))
    let acc := PFloat.add s.std_dev
      (PFloat.mul (PFloat.sub new_value old_mean) (PFloat.sub new_value mean))
    let std_dev :=
      if 1 < n then PFloat.sqrt (PFloat.div acc (.num (n : ℝ))) else .num 1
    { s with mean := mean, std_dev := std_dev }

/-- One statistics step of the per-tick orchestration (source lines 166 to
168): window.append(new_value) followed by update_mean_std(new_value). -/
noncomputable def statsTick (s : RunningStats) (new_value : PFloat) :
    RunningStats :=
  update_mean_std { s with window := appendCap WINDOW_SIZE new_value s.window }
    new_value

/-- The statistics state after feeding a whole input stream tick by tick. -/
noncomputable def runStats (inputs : List PFloat) : RunningStats :=
  inputs.foldl statsTick initStats

/-- Embedding of detect_anomaly (source lines 62 to 86) over exact
rationals: the generated-anomaly flag wins, otherwise the static bounds
decide; previous_value is accepted and ignored, exactly as in the source. -/
def detect_anomaly (new_value : ℚ) (previous_value : ℚ)
    (is_generated_anomaly : Bool) : Bool :=
  if is_generated_anomaly then true
  else if new_value < LOWER_BOUND ∨ UPPER_BOUND < new_value then true
  else false

/-- Embedding of detect_anomaly on Python floats, for non-finite inputs:
same decision, with float comparisons (comparisons with nan are false). -/
noncomputable def detect_anomalyF (new_value : PFloat)
    (previous_value : PFloat) (is_generated_anomaly : Bool) : Bool :=
  if is_generated_anomaly then true
  else if PFloat.lt new_value (.num ((LOWER_BOUND : ℚ) : ℝ))
      || PFloat.lt (.num ((UPPER_BOUND : ℚ) : ℝ)) new_value then true
  else false

/-- Model of the label format expression for an anomalous value: a
deterministic rendering of the value (the source formats the float with
two decimals; here the value scaled by 100 and rounded is rendered,
which is likewise a function of the value alone). -/
def formatLabel (v : ℚ) : String := toString (round (v * 100))

/-- Embedding of clean_old_data (source lines 88 to 111): pop pairs from
the head while the head timestamp is strictly older than
current_time - WINDOW_SIZE. -/
def clean_old_data (data_x : List ℤ) (data_y : List ℚ) (current_time : ℤ) :
    List ℤ × List ℚ :=
  match data_x with
  | [] => ([], data_y)
  | x :: xs =>
    if x < current_time - (WINDOW_SIZE : ℤ) then
      clean_old_data xs data_y.tail current_time
    else (x :: xs, data_y)

/-- Embedding of the anomaly eviction loop (source lines 184 to 187): pop
triples from the head while the head timestamp is strictly older than
current_time - WINDOW_SIZE. -/
def clean_old_anomalies (anomaly_x : List ℤ) (anomaly_y : List ℚ)
    (anomaly_labels : List String) (current_time : ℤ) :
    List ℤ × List ℚ × List String :=
  match anomaly_x with
  | [] => ([], anomaly_y, anomaly_labels)
  | x :: xs =>
    if x < current_time - (WINDOW_SIZE : ℤ) then
      clean_old_anomalies xs anomaly_y.tail anomaly_labels.tail current_time
    else (x :: xs, anomaly_y, anomaly_labels)

/-- The loop-local state of run_anomaly_detection: the tick counter, the
five display deques (each of maxlen DISPLAY_DURATION) and previous_value. -/
structure SeriesState where
  current_time : ℤ
  data_x : List ℤ
  data_y : List ℚ
  anomaly_x : List ℤ
  anomaly_y : List ℚ
  anomaly_labels : List String
  previous_value : ℚ
deriving DecidableEq

/-- Initial loop state from the source: tick counter 0, all deques empty,
previous_value = 0. -/
def initSeries : SeriesState := ⟨0, [], [], [], [], [], 0⟩

/-- One tick of the series bookkeeping in run_anomaly_detection (source
lines 163 to 206): increment the tick counter, append the sample to the
anomaly deques when detect_anomaly fires, append it to the data deques,
evict stale entries from both groups, record previous_value. -/
def seriesTick (s : SeriesState) (input : ℚ × Bool) : SeriesState :=
  let new_value := input.1
  let is_generated_anomaly := input.2
  let t := s.current_time + 1
  let anomalous := detect_anomaly new_value s.previous_value is_generated_anomaly
  let ax := if anomalous then appendCap DISPLAY_DURATION t s.anomaly_x
            else s.anomaly_x
  let ay := if anomalous then appendCap DISPLAY_DURATION new_value s.anomaly_y
            else s.anomaly_y
  let al := if anomalous then
              appendCap DISPLAY_DURATION (formatLabel new_value) s.anomaly_labels
            else s.anomaly_labels
  let dx := appendCap DISPLAY_DURATION t s.data_x
  let dy := appendCap DISPLAY_DURATION new_value s.data_y
  let cleaned := clean_old_data dx dy t
  let cleanedA := clean_old_anomalies ax ay al t
  { current_time := t
    data_x := cleaned.1
    data_y := cleaned.2
    anomaly_x := cleanedA.1
    anomaly_y := cleanedA.2.1
    anomaly_labels := cleanedA.2.2
    previous_value := new_value }

/-- The series state after feeding a whole input stream of
(value, generated-anomaly flag) pairs tick by tick. -/
def runSeries (inputs : List (ℚ × Bool)) : SeriesState :=
  inputs.foldl seriesTick initSeries

/-- Proof helper: the head-eviction loop acting on a single list of
(timestamp, value) records; the three parallel anomaly deques evolve as
the three projections of this. -/
def evictPairs (l : List (ℤ × ℚ)) (t : ℤ) : List (ℤ × ℚ) :=
  match l with
  | [] => []
  | p :: ps => if p.1 < t - (WINDOW_SIZE : ℤ) then evictPairs ps t else p :: ps

/- ————————————————————————— theorems ————————————————————————— -/

/-- previous_value does not enter the decision of detect_anomaly; the two
bodies are definitionally identical. -/
theorem detect_anomaly_prev_eq (v p q : ℚ) (flag : Bool) :
    detect_anomaly v p flag = detect_anomaly v q flag := rfl

/-- detect_anomaly written as a disjunction of its three sources. -/
theorem detect_anomaly_eq (v p : ℚ) (flag : Bool) :
    detect_anomaly v p flag
      = (flag || decide (v < LOWER_BOUND) || decide (UPPER_BOUND < v)) := by
  cases flag with
  | true => simp [detect_anomaly]
  | false =>
    by_cases h1 : v < LOWER_BOUND <;> by_cases h2 : UPPER_BOUND < v <;>
      simp [detect_anomaly, h1, h2]

/-- appendCap yields a sublist of the concatenation. -/
theorem appendCap_sublist {α : Type} (cap : ℕ) (x : α) (xs : List α) :
    (appendCap cap x xs).Sublist (xs ++ [x]) := by
  exact List.drop_sublist _ _

/-- Members of an appendCap come from the old list or are the new entry. -/
theorem mem_appendCap {α : Type} {cap : ℕ} {x y : α} {xs : List α}
    (h : y ∈ appendCap cap x xs) : y ∈ xs ∨ y = x := by
  have := (appendCap_sublist cap x xs).subset h
  simpa using this

/-- appendCap keeps pairwise relations when the new element is above all
old ones. -/
theorem pairwise_appendCap {α : Type} {r : α → α → Prop} {cap : ℕ} {x : α}
    {xs : List α} (hxs : xs.Pairwise r) (hx : ∀ y ∈ xs, r y x) :
    (appendCap cap x xs).Pairwise r := by
  have hp : (xs ++ [x]).Pairwise r := by
    rw [List.pairwise_append]
    exact ⟨hxs, List.pairwise_singleton _ _, by simpa using hx⟩
  exact hp.sublist (appendCap_sublist cap x xs)

/-- appendCap never exceeds the capacity. -/
theorem appendCap_length_le {α : Type} (cap : ℕ) (x : α) (xs : List α) :
    (appendCap cap x xs).length ≤ cap ∨ (appendCap cap x xs).length = xs.length + 1 := by
  simp only [appendCap, List.length_drop, List.length_append, List.length_cons,
    List.length_nil]
  omega

/-- With room left, appendCap is a plain append at the tail. -/
theorem appendCap_of_le {α : Type} {cap : ℕ} (x : α) {xs : List α}
    (h : xs.length + 1 ≤ cap) : appendCap cap x xs = xs ++ [x] := by
  have h0 : (xs ++ [x]).length - cap = 0 := by
    simp only [List.length_append, List.length_cons, List.length_nil]
    omega
  rw [appendCap, h0, List.drop_zero]

/-- The timestamp list returned by clean_old_data is a sublist of its
input. -/
theorem clean_old_data_fst_sublist :
    ∀ (dx : List ℤ) (dy : List ℚ) (t : ℤ),
      (clean_old_data dx dy t).1.Sublist dx := by
  intro dx
  induction dx with
  | nil => intro dy t; simp [clean_old_data]
  | cons x xs ih =>
    intro dy t
    rw [clean_old_data]
    split
    · exact (ih _ _).trans (List.sublist_cons_self x xs)
    · exact List.Sublist.refl _

/-- The timestamp list returned by clean_old_anomalies is a sublist of its
input. -/
theorem clean_old_anomalies_fst_sublist :
    ∀ (ax : List ℤ) (ay : List ℚ) (al : List String) (t : ℤ),
      (clean_old_anomalies ax ay al t).1.Sublist ax := by
  intro ax
  induction ax with
  | nil => intro ay al t; simp [clean_old_anomalies]
  | cons x xs ih =>
    intro ay al t
    rw [clean_old_anomalies]
    split
    · exact (ih _ _ _).trans (List.sublist_cons_self x xs)
    · exact List.Sublist.refl _

/-- Generic foldl invariant preservation. -/
theorem foldl_inv {σ α : Type} {P : σ → Prop} {f : σ → α → σ}
    (hf : ∀ s a, P s → P (f s a)) :
    ∀ (l : List α) (s : σ), P s → P (l.foldl f s) := by
  intro l
  induction l with
  | nil => intro s hs; exact hs
  | cons a l ih => intro s hs; exact ih _ (hf s a hs)

/-- Generic foldl invariant preservation, with the invariant indexed by the
consumed prefix of the input. -/
theorem foldl_inv_prefix {σ α : Type} {P : List α → σ → Prop} {f : σ → α → σ}
    (hf : ∀ pre s a, P pre s → P (pre ++ [a]) (f s a)) :
    ∀ (l pre : List α) (s : σ), P pre s → P (pre ++ l) (l.foldl f s) := by
  intro l
  induction l with
  | nil => intro pre s hs; simpa using hs
  | cons a l ih =>
    intro pre s hs
    have := ih (pre ++ [a]) (f s a) (hf pre s a hs)
    simpa using this

/-- C6: the classifier returns true for 21 with flag false, true for -21
with flag false, false for 0 with flag false, true for 0 with flag true;
in general the flag forces a true result and otherwise the result is true
exactly when the value is strictly below LOWER_BOUND or strictly above
UPPER_BOUND. -/
theorem C6_bound_classification :
    detect_anomaly 21 0 false = true ∧
    detect_anomaly (-21) 0 false = true ∧
    detect_anomaly 0 0 false = false ∧
    detect_anomaly 0 0 true = true ∧
    ∀ (v p : ℚ) (flag : Bool),
      detect_anomaly v p flag
        = (flag || decide (v < LOWER_BOUND) || decide (UPPER_BOUND < v)) :=
  ⟨by decide, by decide, by decide, by decide, detect_anomaly_eq⟩

/-- C9: two classifier calls differing only in previous_value return the
same result, in the rational model and in the float model alike: the
parameter carries no semantic weight. -/
theorem C9_previous_value_no_effect :
    (∀ (v p q : ℚ) (flag : Bool),
      detect_anomaly v p flag = detect_anomaly v q flag) ∧
    (∀ (v p q : PFloat) (flag : Bool),
      detect_anomalyF v p flag = detect_anomalyF v q flag) :=
  ⟨fun _ _ _ _ => rfl, fun _ _ _ _ => rfl⟩

set_option maxRecDepth 40000 in
/-- C4: appending one sample per tick for ticks 1 to 50 leaves exactly the
entries with timestamps 11 to 50 in the raw-data series; every retained
timestamp is strictly greater than 10 and the entries of ticks 1 to 10 are
absent. -/
theorem C4_time_eviction :
    (runSeries (List.replicate 50 ((0:ℚ), false))).data_x
      = (List.range' 11 40).map (fun n => (n : ℤ)) ∧
    ((runSeries (List.replicate 50 ((0:ℚ), false))).data_x.all
      fun t => decide (10 < t)) = true ∧
    (((List.range' 1 10).map (fun n => (n : ℤ))).all
      fun t => !((runSeries (List.replicate 50 ((0:ℚ), false))).data_x.contains t))
      = true := by
  refine ⟨by decide, by decide, by decide⟩

set_option maxRecDepth 40000 in
/-- C3 counterexample: a single anomalous sample at tick 1 followed by 41
non-anomalous ticks. After tick 1 the anomaly series holds exactly the
entry appended at tick 1 (its tail); no later tick appends to it; yet
after tick 42 the eviction loop has removed that most recently appended
entry and the anomaly series is empty, contradicting the claim that
eviction never removes the tail and that an appended-to series never
becomes empty. -/
theorem C3_counterexample :
    (runSeries [((0:ℚ), true)]).anomaly_x = [1] ∧
    detect_anomaly 0 0 false = false ∧
    (runSeries (((0:ℚ), true) :: List.replicate 41 ((0:ℚ), false))).anomaly_x
      = [] := by
  refine ⟨by decide, by decide, by decide⟩

/-- With a positive capacity, the entry just appended is the tail. -/
theorem appendCap_getLast {α : Type} {cap : ℕ} (hcap : 1 ≤ cap) (x : α)
    (xs : List α) : (appendCap cap x xs).getLast? = some x := by
  have hk : (xs ++ [x]).length - cap ≤ xs.length := by
    simp only [List.length_append, List.length_cons, List.length_nil]
    omega
  rw [appendCap, List.drop_append_of_le_length hk, List.getLast?_concat]

/-- clean_old_data keeps the tail when the tail is not older than the
cutoff. -/
theorem clean_old_data_getLast :
    ∀ (dx : List ℤ) (dy : List ℚ) (t m : ℤ),
      dx.getLast? = some m → ¬ m < t - (WINDOW_SIZE : ℤ) →
      (clean_old_data dx dy t).1.getLast? = some m := by
  intro dx
  induction dx with
  | nil => intro dy t m hm _; simp at hm
  | cons x xs ih =>
    intro dy t m hm hnot
    rw [clean_old_data]
    split
    · match xs, hm with
      | [], hm =>
        simp only [List.getLast?_singleton, Option.some.injEq] at hm
        subst hm
        omega
      | y :: ys, hm =>
        rw [List.getLast?_cons_cons] at hm
        exact ih _ _ _ hm hnot
    · exact hm

/-- One tick leaves the current timestamp as the tail of the raw-data
series: the sample is appended before eviction and its timestamp is never
older than the cutoff. -/
theorem seriesTick_data_x_getLast (s : SeriesState) (a : ℚ × Bool) :
    (seriesTick s a).data_x.getLast? = some (s.current_time + 1) := by
  simp only [seriesTick]
  exact clean_old_data_getLast _ _ _ _
    (appendCap_getLast (by norm_num [DISPLAY_DURATION]) _ _) (by omega)

/-- The tick counter advances by one on every tick. -/
theorem seriesTick_current_time (s : SeriesState) (a : ℚ × Bool) :
    (seriesTick s a).current_time = s.current_time + 1 := rfl

/-- C3 amended: the raw-data series never loses its tail through eviction:
after any nonempty input stream it is nonempty and its last entry carries
the current tick, because a sample with the current timestamp is appended
at every tick before the eviction runs. (The anomaly series, appended to
only on anomalous ticks, is not covered: it can be emptied by eviction.) -/
theorem C3_amended (inputs : List (ℚ × Bool)) (h : inputs ≠ []) :
    (runSeries inputs).data_x.getLast?
        = some (runSeries inputs).current_time ∧
    (runSeries inputs).data_x ≠ [] := by
  induction inputs using List.reverseRecOn with
  | nil => exact absurd rfl h
  | append_singleton pre a _ =>
    have hrun : runSeries (pre ++ [a]) = seriesTick (runSeries pre) a := by
      simp [runSeries, List.foldl_append]
    rw [hrun, seriesTick_current_time]
    refine ⟨seriesTick_data_x_getLast _ _, ?_⟩
    intro hnil
    have := seriesTick_data_x_getLast (runSeries pre) a
    rw [hnil] at this
    simp at this

/-- Witness for C3 amended at the concrete one-tick input stream. -/
theorem C3_witness :
    (([((5:ℚ), false)] : List (ℚ × Bool)) ≠ []) ∧
    ((runSeries [((5:ℚ), false)]).data_x.getLast?
        = some (runSeries [((5:ℚ), false)]).current_time ∧
      (runSeries [((5:ℚ), false)]).data_x ≠ []) :=
  ⟨by decide, C3_amended _ (by decide)⟩

/-- Unfolded form of the data_x field of one tick. -/
theorem seriesTick_data_x (s : SeriesState) (a : ℚ × Bool) :
    (seriesTick s a).data_x
      = (clean_old_data (appendCap DISPLAY_DURATION (s.current_time + 1) s.data_x)
          (appendCap DISPLAY_DURATION a.1 s.data_y) (s.current_time + 1)).1 := rfl

/-- Unfolded form of the anomaly_x field of one tick. -/
theorem seriesTick_anomaly_x (s : SeriesState) (a : ℚ × Bool) :
    (seriesTick s a).anomaly_x
      = (clean_old_anomalies
          (if detect_anomaly a.1 s.previous_value a.2 then
            appendCap DISPLAY_DURATION (s.current_time + 1) s.anomaly_x
          else s.anomaly_x)
          (if detect_anomaly a.1 s.previous_value a.2 then
            appendCap DISPLAY_DURATION a.1 s.anomaly_y
          else s.anomaly_y)
          (if detect_anomaly a.1 s.previous_value a.2 then
            appendCap DISPLAY_DURATION (formatLabel a.1) s.anomaly_labels
          else s.anomaly_labels)
          (s.current_time + 1)).1 := rfl

/-- C7: after any input stream the timestamps of both series are
non-decreasing in snapshot order (in fact strictly increasing; appends
happen at the tail, evictions at the head). -/
theorem C7_fifo_order (inputs : List (ℚ × Bool)) :
    (runSeries inputs).data_x.Chain' (· ≤ ·) ∧
    (runSeries inputs).anomaly_x.Chain' (· ≤ ·) := by
  have key : ((runSeries inputs).data_x.Pairwise (· < ·) ∧
        (∀ x ∈ (runSeries inputs).data_x, x ≤ (runSeries inputs).current_time)) ∧
      ((runSeries inputs).anomaly_x.Pairwise (· < ·) ∧
        (∀ x ∈ (runSeries inputs).anomaly_x,
          x ≤ (runSeries inputs).current_time)) := by
    refine foldl_inv (P := fun s : SeriesState =>
      (s.data_x.Pairwise (· < ·) ∧ (∀ x ∈ s.data_x, x ≤ s.current_time)) ∧
      (s.anomaly_x.Pairwise (· < ·) ∧ (∀ x ∈ s.anomaly_x, x ≤ s.current_time)))
      ?_ inputs initSeries (by simp [initSeries])
    rintro s a ⟨⟨pd, bd⟩, pa, ba⟩
    have hdx1 : (appendCap DISPLAY_DURATION (s.current_time + 1) s.data_x).Pairwise
        (· < ·) :=
      pairwise_appendCap pd (fun y hy => by have := bd y hy; omega)
    have hdx1m : ∀ x ∈ appendCap DISPLAY_DURATION (s.current_time + 1) s.data_x,
        x ≤ s.current_time + 1 := by
      intro y hy
      rcases mem_appendCap hy with h | h
      · have := bd y h; omega
      · omega
    have hax1 : (if detect_anomaly a.1 s.previous_value a.2 then
        appendCap DISPLAY_DURATION (s.current_time + 1) s.anomaly_x
        else s.anomaly_x).Pairwise (· < ·) := by
      split
      · exact pairwise_appendCap pa (fun y hy => by have := ba y hy; omega)
      · exact pa
    have hax1m : ∀ x ∈ (if detect_anomaly a.1 s.previous_value a.2 then
        appendCap DISPLAY_DURATION (s.current_time + 1) s.anomaly_x
        else s.anomaly_x), x ≤ s.current_time + 1 := by
      split
      · intro y hy
        rcases mem_appendCap hy with h | h
        · have := ba y h; omega
        · omega
      · intro y hy; have := ba y hy; omega
    refine ⟨⟨?_, ?_⟩, ?_, ?_⟩
    · rw [seriesTick_data_x]
      exact hdx1.sublist (clean_old_data_fst_sublist _ _ _)
    · intro y hy
      rw [seriesTick_data_x] at hy
      rw [seriesTick_current_time]
      exact hdx1m y ((clean_old_data_fst_sublist _ _ _).subset hy)
    · rw [seriesTick_anomaly_x]
      exact hax1.sublist (clean_old_anomalies_fst_sublist _ _ _ _)
    · intro y hy
      rw [seriesTick_anomaly_x] at hy
      rw [seriesTick_current_time]
      exact hax1m y ((clean_old_anomalies_fst_sublist _ _ _ _).subset hy)
  constructor
  · exact List.chain'_iff_pairwise.mpr (key.1.1.imp fun h => le_of_lt h)
  · exact List.chain'_iff_pairwise.mpr (key.2.1.imp fun h => le_of_lt h)

/-- appendCap never yields more than cap entries. -/
theorem appendCap_length {α : Type} (cap : ℕ) (x : α) (xs : List α)
    (h : xs.length ≤ cap) : (appendCap cap x xs).length ≤ cap := by
  simp only [appendCap, List.length_drop, List.length_append, List.length_cons,
    List.length_nil]
  omega

/-- Eviction does not lengthen the value list of clean_old_anomalies. -/
theorem clean_old_anomalies_snd_length :
    ∀ (ax : List ℤ) (ay : List ℚ) (al : List String) (t : ℤ),
      (clean_old_anomalies ax ay al t).2.1.length ≤ ay.length := by
  intro ax
  induction ax with
  | nil => intro ay al t; simp [clean_old_anomalies]
  | cons x xs ih =>
    intro ay al t
    rw [clean_old_anomalies]
    split
    · exact (ih _ _ _).trans (by simp [List.length_tail])
    · exact le_refl _

/-- Eviction does not lengthen the label list of clean_old_anomalies. -/
theorem clean_old_anomalies_labels_length :
    ∀ (ax : List ℤ) (ay : List ℚ) (al : List String) (t : ℤ),
      (clean_old_anomalies ax ay al t).2.2.length ≤ al.length := by
  intro ax
  induction ax with
  | nil => intro ay al t; simp [clean_old_anomalies]
  | cons x xs ih =>
    intro ay al t
    rw [clean_old_anomalies]
    split
    · exact (ih _ _ _).trans (by simp [List.length_tail])
    · exact le_refl _

/-- Unfolded form of the anomaly_y field of one tick. -/
theorem seriesTick_anomaly_y (s : SeriesState) (a : ℚ × Bool) :
    (seriesTick s a).anomaly_y
      = (clean_old_anomalies
          (if detect_anomaly a.1 s.previous_value a.2 then
            appendCap DISPLAY_DURATION (s.current_time + 1) s.anomaly_x
          else s.anomaly_x)
          (if detect_anomaly a.1 s.previous_value a.2 then
            appendCap DISPLAY_DURATION a.1 s.anomaly_y
          else s.anomaly_y)
          (if detect_anomaly a.1 s.previous_value a.2 then
            appendCap DISPLAY_DURATION (formatLabel a.1) s.anomaly_labels
          else s.anomaly_labels)
          (s.current_time + 1)).2.1 := rfl

/-- Unfolded form of the anomaly_labels field of one tick. -/
theorem seriesTick_anomaly_labels (s : SeriesState) (a : ℚ × Bool) :
    (seriesTick s a).anomaly_labels
      = (clean_old_anomalies
          (if detect_anomaly a.1 s.previous_value a.2 then
            appendCap DISPLAY_DURATION (s.current_time + 1) s.anomaly_x
          else s.anomaly_x)
          (if detect_anomaly a.1 s.previous_value a.2 then
            appendCap DISPLAY_DURATION a.1 s.anomaly_y
          else s.anomaly_y)
          (if detect_anomaly a.1 s.previous_value a.2 then
            appendCap DISPLAY_DURATION (formatLabel a.1) s.anomaly_labels
          else s.anomaly_labels)
          (s.current_time + 1)).2.2 := rfl

/-- The three anomaly deques never exceed DISPLAY_DURATION entries, for
any input stream. -/
theorem runSeries_anomaly_length_le (inputs : List (ℚ × Bool)) :
    (runSeries inputs).anomaly_x.length ≤ DISPLAY_DURATION ∧
    (runSeries inputs).anomaly_y.length ≤ DISPLAY_DURATION ∧
    (runSeries inputs).anomaly_labels.length ≤ DISPLAY_DURATION := by
  refine foldl_inv (P := fun s : SeriesState =>
    s.anomaly_x.length ≤ DISPLAY_DURATION ∧
    s.anomaly_y.length ≤ DISPLAY_DURATION ∧
    s.anomaly_labels.length ≤ DISPLAY_DURATION)
    ?_ inputs initSeries (by simp [initSeries])
  rintro s a ⟨hx, hy, hl⟩
  refine ⟨?_, ?_, ?_⟩
  · rw [seriesTick_anomaly_x]
    refine le_trans
      (List.Sublist.length_le (clean_old_anomalies_fst_sublist _ _ _ _)) ?_
    split
    · exact appendCap_length _ _ _ hx
    · exact hx
  · rw [seriesTick_anomaly_y]
    refine le_trans (clean_old_anomalies_snd_length _ _ _ _) ?_
    split
    · exact appendCap_length _ _ _ hy
    · exact hy
  · rw [seriesTick_anomaly_labels]
    refine le_trans (clean_old_anomalies_labels_length _ _ _ _) ?_
    split
    · exact appendCap_length _ _ _ hl
    · exact hl

/-- C8: the snapshot of the anomaly series never holds more than
DISPLAY_DURATION = 40 entries, for every input stream (in particular for
streams with more than 40 anomalous ticks in immediate succession); and at
full capacity an append drops the oldest entry on insert. -/
theorem C8_capacity_bound :
    (∀ inputs : List (ℚ × Bool),
      (runSeries inputs).anomaly_x.length ≤ DISPLAY_DURATION ∧
      (runSeries inputs).anomaly_y.length ≤ DISPLAY_DURATION ∧
      (runSeries inputs).anomaly_labels.length ≤ DISPLAY_DURATION) ∧
    ∀ (l : List ℤ) (x : ℤ), l.length = DISPLAY_DURATION →
      appendCap DISPLAY_DURATION x l = l.tail ++ [x] := by
  refine ⟨runSeries_anomaly_length_le, ?_⟩
  intro l x h
  have h1 : (l ++ [x]).length - DISPLAY_DURATION = 1 := by
    simp only [List.length_append, List.length_cons, List.length_nil]
    omega
  have h2 : (1 : ℕ) ≤ l.length := by
    rw [h]; norm_num [DISPLAY_DURATION]
  rw [appendCap, h1, List.drop_append_of_le_length h2, List.drop_one]

/-- Witness for C8 at the concrete full deque of timestamps 1 to 40. -/
theorem C8_witness :
    (((List.range' 1 40).map (fun n => (n : ℤ))).length = DISPLAY_DURATION) ∧
    appendCap DISPLAY_DURATION 99 ((List.range' 1 40).map (fun n => (n : ℤ)))
      = ((List.range' 1 40).map (fun n => (n : ℤ))).tail ++ [99] :=
  ⟨by decide, C8_capacity_bound.2 _ 99 (by decide)⟩

/-- appendCap commutes with mapping a projection over the record list. -/
theorem appendCap_map {α β : Type} (f : α → β) (cap : ℕ) (p : α) (l : List α) :
    appendCap cap (f p) (l.map f) = (appendCap cap p l).map f := by
  simp only [appendCap]
  have h : List.map f l ++ [f p] = List.map f (l ++ [p]) := by simp
  rw [h, List.length_map, List.map_drop]

/-- evictPairs removes a prefix of the record list. -/
theorem evictPairs_sublist (l : List (ℤ × ℚ)) (t : ℤ) :
    (evictPairs l t).Sublist l := by
  induction l with
  | nil => simp [evictPairs]
  | cons p ps ih =>
    rw [evictPairs]
    split
    · exact ih.trans (List.sublist_cons_self p ps)
    · exact List.Sublist.refl _

/-- The anomaly eviction loop acting on the three projections of a record
list equals the three projections of evictPairs on the record list. -/
theorem clean_old_anomalies_evictPairs (l : List (ℤ × ℚ)) (t : ℤ) :
    clean_old_anomalies (l.map Prod.fst) (l.map Prod.snd)
        (l.map fun p => formatLabel p.2) t
      = ((evictPairs l t).map Prod.fst, (evictPairs l t).map Prod.snd,
        (evictPairs l t).map fun p => formatLabel p.2) := by
  induction l with
  | nil => simp [clean_old_anomalies, evictPairs]
  | cons p ps ih =>
    simp only [List.map_cons, clean_old_anomalies, evictPairs, List.tail_cons]
    by_cases h : p.1 < t - (WINDOW_SIZE : ℤ)
    · simpa [h] using ih
    · simp [h]

/-- The tick counter after a run equals the number of consumed inputs. -/
theorem runSeries_current_time (inputs : List (ℚ × Bool)) :
    (runSeries inputs).current_time = (inputs.length : ℤ) := by
  have key : ∀ (l : List (ℚ × Bool)) (s : SeriesState),
      (l.foldl seriesTick s).current_time = s.current_time + (l.length : ℤ) := by
    intro l
    induction l with
    | nil => intro s; simp
    | cons a l ih =>
      intro s
      rw [List.foldl_cons, ih, seriesTick_current_time]
      simp only [List.length_cons]
      push_cast
      ring
  rw [runSeries, key]
  simp [initSeries]

/-- The three anomaly deques are the projections of one record list whose
entries all come from anomalous ticks of the input stream. -/
theorem runSeries_anomaly_spine (inputs : List (ℚ × Bool)) :
    ∃ l : List (ℤ × ℚ),
      (runSeries inputs).anomaly_x = l.map Prod.fst ∧
      (runSeries inputs).anomaly_y = l.map Prod.snd ∧
      (runSeries inputs).anomaly_labels = l.map (fun p => formatLabel p.2) ∧
      ∀ p ∈ l, 1 ≤ p.1 ∧ p.1 ≤ (inputs.length : ℤ) ∧
        ∃ flag : Bool, inputs.get? (p.1 - 1).toNat = some (p.2, flag) ∧
          detect_anomaly p.2 0 flag = true := by
  have main : ∀ (rest pre : List (ℚ × Bool)) (s : SeriesState),
      (s.current_time = (pre.length : ℤ) ∧
        ∃ l : List (ℤ × ℚ),
          s.anomaly_x = l.map Prod.fst ∧
          s.anomaly_y = l.map Prod.snd ∧
          s.anomaly_labels = l.map (fun p => formatLabel p.2) ∧
          ∀ p ∈ l, 1 ≤ p.1 ∧ p.1 ≤ (pre.length : ℤ) ∧
            ∃ flag : Bool, pre.get? (p.1 - 1).toNat = some (p.2, flag) ∧
              detect_anomaly p.2 0 flag = true) →
      ((rest.foldl seriesTick s).current_time = ((pre ++ rest).length : ℤ) ∧
        ∃ l : List (ℤ × ℚ),
          (rest.foldl seriesTick s).anomaly_x = l.map Prod.fst ∧
          (rest.foldl seriesTick s).anomaly_y = l.map Prod.snd ∧
          (rest.foldl seriesTick s).anomaly_labels
            = l.map (fun p => formatLabel p.2) ∧
          ∀ p ∈ l, 1 ≤ p.1 ∧ p.1 ≤ ((pre ++ rest).length : ℤ) ∧
            ∃ flag : Bool, (pre ++ rest).get? (p.1 - 1).toNat = some (p.2, flag) ∧
              detect_anomaly p.2 0 flag = true) := by
    refine foldl_inv_prefix ?_
    rintro pre s a ⟨hct, l, hx, hy, hl, hmem⟩
    have hmem_lift : ∀ p ∈ l, 1 ≤ p.1 ∧ p.1 ≤ ((pre ++ [a]).length : ℤ) ∧
        ∃ flag : Bool, (pre ++ [a]).get? (p.1 - 1).toNat = some (p.2, flag) ∧
          detect_anomaly p.2 0 flag = true := by
      intro p hp
      obtain ⟨h1, h2, flag, hget, hdet⟩ := hmem p hp
      have hlt : (p.1 - 1).toNat < pre.length := by omega
      refine ⟨h1, by simp; omega, flag, ?_, hdet⟩
      rw [List.get?_append hlt]
      exact hget
    constructor
    · rw [seriesTick_current_time, hct]; simp
    by_cases hdet : detect_anomaly a.1 s.previous_value a.2
    · -- anomalous tick: a new record (t, value) is appended, then eviction
      have hm1 : appendCap DISPLAY_DURATION (s.current_time + 1) (l.map Prod.fst)
          = (appendCap DISPLAY_DURATION (s.current_time + 1, a.1) l).map
            Prod.fst :=
        appendCap_map Prod.fst DISPLAY_DURATION (s.current_time + 1, a.1) l
      have hm2 : appendCap DISPLAY_DURATION a.1 (l.map Prod.snd)
          = (appendCap DISPLAY_DURATION (s.current_time + 1, a.1) l).map
            Prod.snd :=
        appendCap_map Prod.snd DISPLAY_DURATION (s.current_time + 1, a.1) l
      have hm3 : appendCap DISPLAY_DURATION (formatLabel a.1)
            (l.map fun p => formatLabel p.2)
          = (appendCap DISPLAY_DURATION (s.current_time + 1, a.1) l).map
            (fun p => formatLabel p.2) :=
        appendCap_map (fun p => formatLabel p.2) DISPLAY_DURATION
          (s.current_time + 1, a.1) l
      refine ⟨evictPairs (appendCap DISPLAY_DURATION
        (s.current_time + 1, a.1) l) (s.current_time + 1), ?_, ?_, ?_, ?_⟩
      · rw [seriesTick_anomaly_x, if_pos hdet, if_pos hdet, if_pos hdet,
          hx, hy, hl, hm1, hm2, hm3, clean_old_anomalies_evictPairs]
      · rw [seriesTick_anomaly_y, if_pos hdet, if_pos hdet, if_pos hdet,
          hx, hy, hl, hm1, hm2, hm3, clean_old_anomalies_evictPairs]
      · rw [seriesTick_anomaly_labels, if_pos hdet, if_pos hdet, if_pos hdet,
          hx, hy, hl, hm1, hm2, hm3, clean_old_anomalies_evictPairs]
      · intro p hp
        have hp1 : p ∈ appendCap DISPLAY_DURATION (s.current_time + 1, a.1) l :=
          (evictPairs_sublist _ _).subset hp
        rcases mem_appendCap hp1 with hold | hnew
        · exact hmem_lift p hold
        · subst hnew
          refine ⟨?_, ?_, a.2, ?_, ?_⟩
          · show (1 : ℤ) ≤ s.current_time + 1
            have h0 : (0 : ℤ) ≤ (pre.length : ℤ) := Int.natCast_nonneg _
            omega
          · show s.current_time + 1 ≤ ((pre ++ [a]).length : ℤ)
            simp only [List.length_append, List.length_cons, List.length_nil]
            push_cast
            omega
          · show (pre ++ [a]).get? (s.current_time + 1 - 1).toNat
              = some (a.1, a.2)
            have harg : (s.current_time + 1 - 1).toNat = pre.length := by
              omega
            rw [harg, List.get?_concat_length]
          · show detect_anomaly a.1 0 a.2 = true
            rw [detect_anomaly_prev_eq a.1 0 s.previous_value a.2]
            exact hdet
    · -- non-anomalous tick: no append, only eviction
      refine ⟨evictPairs l (s.current_time + 1), ?_, ?_, ?_, ?_⟩
      · rw [seriesTick_anomaly_x, if_neg hdet, if_neg hdet, if_neg hdet,
          hx, hy, hl, clean_old_anomalies_evictPairs]
      · rw [seriesTick_anomaly_y, if_neg hdet, if_neg hdet, if_neg hdet,
          hx, hy, hl, clean_old_anomalies_evictPairs]
      · rw [seriesTick_anomaly_labels, if_neg hdet, if_neg hdet, if_neg hdet,
          hx, hy, hl, clean_old_anomalies_evictPairs]
      · intro p hp
        exact hmem_lift p ((evictPairs_sublist _ _).subset hp)
  have := main inputs [] initSeries
    (by exact ⟨by simp [initSeries], [], by simp [initSeries], by
      simp [initSeries], by simp [initSeries], by simp⟩)
  simpa [runSeries] using this.2

/-- C10: after every run the three anomaly deques have equal length, every
label is the formatted rendering of the value at the same index, and each
(timestamp, value) pair at matching indices is the sample of an anomalous
input tick. -/
theorem C10_parallel_anomaly_series (inputs : List (ℚ × Bool)) :
    (runSeries inputs).anomaly_x.length = (runSeries inputs).anomaly_y.length ∧
    (runSeries inputs).anomaly_y.length
      = (runSeries inputs).anomaly_labels.length ∧
    (runSeries inputs).anomaly_labels
      = (runSeries inputs).anomaly_y.map formatLabel ∧
    ((runSeries inputs).anomaly_x.zip (runSeries inputs).anomaly_y).Forall
      (fun p => ∃ flag : Bool, inputs.get? (p.1 - 1).toNat = some (p.2, flag) ∧
        detect_anomaly p.2 0 flag = true) := by
  obtain ⟨l, hx, hy, hl, hmem⟩ := runSeries_anomaly_spine inputs
  refine ⟨by rw [hx, hy]; simp, by rw [hy, hl]; simp, ?_, ?_⟩
  · rw [hy, hl, List.map_map]
    rfl
  · rw [hx, hy, List.zip_map']
    rw [List.forall_iff_forall_mem]
    intro p hp
    rw [List.mem_map] at hp
    obtain ⟨q, hq, rfl⟩ := hp
    exact (hmem q hq).2.2

/-- Addition of two finite float values. -/
theorem add_num_num (a b : ℝ) : PFloat.add (.num a) (.num b) = .num (a + b) := rfl

/-- Subtraction of two finite float values. -/
theorem sub_num_num (a b : ℝ) : PFloat.sub (.num a) (.num b) = .num (a - b) := rfl

/-- Multiplication of two finite float values. -/
theorem mul_num_num (a b : ℝ) : PFloat.mul (.num a) (.num b) = .num (a * b) := rfl

/-- Division of two finite float values with nonzero divisor. -/
theorem div_num_num (a b : ℝ) (h : b ≠ 0) :
    PFloat.div (.num a) (.num b) = .num (a / b) := by
  simp [PFloat.div, h]

/-- Square root of a nonnegative finite float value. -/
theorem sqrt_num (a : ℝ) (h : ¬ a < 0) :
    PFloat.sqrt (.num a) = .num (Real.sqrt a) := by
  simp [PFloat.sqrt, h]

/-- update_mean_std does not touch the window. -/
theorem update_mean_std_window (s : RunningStats) (v : PFloat) :
    (update_mean_std s v).window = s.window := by
  by_cases h : s.window.length = 0 <;> simp [update_mean_std, h]

/-- The mean recurrence of update_mean_std on a nonempty window. -/
theorem update_mean_std_mean (s : RunningStats) (v : PFloat)
    (h : s.window.length ≠ 0) :
    (update_mean_std s v).mean
      = PFloat.add s.mean (PFloat.div (PFloat.sub v s.mean)
          (.num ((s.window.length : ℝ) + 1))) := by
  simp [update_mean_std, h]

/-- The std fallback of update_mean_std on a window of length exactly 1. -/
theorem update_mean_std_std_one (s : RunningStats) (v : PFloat)
    (h : s.window.length = 1) :
    (update_mean_std s v).std_dev = .num 1 := by
  simp [update_mean_std, h]

/-- The window after one orchestrated statistics step. -/
theorem statsTick_window (s : RunningStats) (v : PFloat) :
    (statsTick s v).window = appendCap WINDOW_SIZE v s.window := by
  simp [statsTick, update_mean_std_window]

/-- An appendCap with positive capacity is never empty. -/
theorem appendCap_length_ne_zero {α : Type} (cap : ℕ) (x : α) (xs : List α)
    (h : 1 ≤ cap) : (appendCap cap x xs).length ≠ 0 := by
  simp only [appendCap, List.length_drop, List.length_append, List.length_cons,
    List.length_nil]
  omega

/-- The mean after one orchestrated statistics step: because the value is
appended to the window before update_mean_std runs, the window is never
empty during the update and the empty-window branch is unreachable. -/
theorem statsTick_mean (s : RunningStats) (v : PFloat) :
    (statsTick s v).mean
      = PFloat.add s.mean (PFloat.div (PFloat.sub v s.mean)
          (.num (((appendCap WINDOW_SIZE v s.window).length : ℝ) + 1))) := by
  rw [statsTick, update_mean_std_mean]
  exact appendCap_length_ne_zero _ _ _ (by norm_num [WINDOW_SIZE])

/-- The full state after the first orchestrated update on a fresh
RunningStats: the window holds the sample, the mean is half the sample
value (the initial mean 0 enters as a phantom sample because n = 1 at the
time of the update), and the std is the fixed fallback 1. -/
theorem statsTick_init (x : ℝ) :
    statsTick initStats (.num x) = ⟨[.num x], .num (x / 2), .num 1⟩ := by
  have h1 : (statsTick initStats (.num x)).window = [.num x] := by
    rw [statsTick_window]; rfl
  have h2 : (statsTick initStats (.num x)).mean = .num (x / 2) := by
    rw [statsTick_mean]
    show PFloat.add (.num 0) (PFloat.div (PFloat.sub (.num x) (.num 0))
      (.num (((1:ℕ) : ℝ) + 1))) = .num (x / 2)
    rw [sub_num_num, div_num_num _ _ (by norm_num), add_num_num]
    congr 1
    push_cast
    ring
  have h3 : (statsTick initStats (.num x)).std_dev = .num 1 := by
    rw [statsTick]
    exact update_mean_std_std_one _ _ rfl
  calc statsTick initStats (.num x)
      = ⟨(statsTick initStats (.num x)).window,
        (statsTick initStats (.num x)).mean,
        (statsTick initStats (.num x)).std_dev⟩ := rfl
    _ = ⟨[.num x], .num (x / 2), .num 1⟩ := by rw [h1, h2, h3]

/-- Feeding N copies of a constant finite value through the orchestration:
for N up to the window capacity the window holds the N copies and the mean
is N * x / (N + 1). -/
theorem runStats_replicate (x : ℝ) :
    ∀ N : ℕ, N ≤ 40 →
      (runStats (List.replicate N (.num x))).window
          = List.replicate N (.num x) ∧
      (runStats (List.replicate N (.num x))).mean
          = .num ((N : ℝ) * x / ((N : ℝ) + 1)) := by
  intro N
  induction N with
  | zero =>
    intro _
    refine ⟨by simp [runStats, initStats], ?_⟩
    show PFloat.num 0 = .num (((0:ℕ) : ℝ) * x / (((0:ℕ) : ℝ) + 1))
    congr 1
    push_cast
    ring
  | succ n ih =>
    intro h
    obtain ⟨hw, hm⟩ := ih (by omega)
    have hrun : runStats (List.replicate (n+1) (.num x))
        = statsTick (runStats (List.replicate n (.num x))) (.num x) := by
      rw [List.replicate_succ']
      simp [runStats, List.foldl_append]
    have happ : appendCap WINDOW_SIZE (PFloat.num x)
        (List.replicate n (PFloat.num x)) = List.replicate (n+1) (.num x) := by
      rw [appendCap_of_le _ (by simp [WINDOW_SIZE]; omega)]
      rw [← List.replicate_succ']
    constructor
    · rw [hrun, statsTick_window, hw, happ]
    · rw [hrun, statsTick_mean, hw, happ, hm, List.length_replicate]
      rw [sub_num_num, div_num_num _ _ (Nat.cast_add_one_ne_zero (n+1)),
        add_num_num]
      congr 1
      have h1 : ((n:ℝ) + 1) ≠ 0 := Nat.cast_add_one_ne_zero n
      have h2 : ((n:ℝ) + 1 + 1) ≠ 0 := by positivity
      push_cast
      field_simp
      ring

/-- C1 counterexample: the first orchestrated update of a fresh
RunningStats with value 2 yields mean 1, not 2, and std 1, not 0 — the
orchestration appends the value to the window before calling the update,
so n = 1 (never 0) at the first update. -/
theorem C1_counterexample :
    (statsTick initStats (.num 2)).mean = PFloat.num 1 ∧
    PFloat.num (1:ℝ) ≠ PFloat.num 2 ∧
    (statsTick initStats (.num 2)).std_dev = PFloat.num 1 ∧
    PFloat.num (1:ℝ) ≠ PFloat.num 0 := by
  refine ⟨?_, by norm_num, ?_, by norm_num⟩
  · rw [statsTick_init]
    norm_num
  · rw [statsTick_init]

/-- C1 amended: under the per-tick orchestration the window already holds
the new value when update_mean_std runs, so the first update of a fresh
RunningStats yields mean = value / 2 and std = 1 (the branch that would
set mean = value and std = 0 is unreachable), and the second update does
not yield std = 1 in general: with the values 2 and 2 it yields
sqrt (5 / 6), which is not 1. -/
theorem C1_amended :
    (∀ x : ℝ, (statsTick initStats (.num x)).mean = .num (x / 2) ∧
      (statsTick initStats (.num x)).std_dev = .num 1) ∧
    (statsTick (statsTick initStats (.num 2)) (.num 2)).std_dev
      = .num (Real.sqrt (5/6)) ∧
    Real.sqrt (5/6) ≠ 1 := by
  refine ⟨fun x => ⟨by rw [statsTick_init], by rw [statsTick_init]⟩, ?_, ?_⟩
  · have e1 : statsTick initStats (.num 2) = ⟨[.num 2], .num 1, .num 1⟩ := by
      rw [statsTick_init]
      norm_num
    rw [e1]
    set r : ℝ := Real.sqrt (5/6) with hr
    norm_num [statsTick, appendCap, update_mean_std, WINDOW_SIZE, sub_num_num,
      add_num_num, mul_num_num]
    rw [div_num_num 1 3 (by norm_num), add_num_num, sub_num_num, mul_num_num,
      add_num_num, div_num_num _ _ (show (2:ℝ) ≠ 0 by norm_num),
      sqrt_num _ (by norm_num)]
    rw [hr]
    congr 1
    norm_num
  · intro hcon
    rw [Real.sqrt_eq_one] at hcon
    norm_num at hcon

/-- C5 counterexample: two copies of the constant 3 yield mean 2, not 3 —
the initial mean 0 acts as a phantom sample under the orchestration. -/
theorem C5_counterexample :
    (runStats (List.replicate 2 (PFloat.num (3:ℝ)))).mean = PFloat.num 2 ∧
    PFloat.num (2:ℝ) ≠ PFloat.num 3 := by
  constructor
  · rw [(runStats_replicate 3 2 (by norm_num)).2]
    norm_num
  · norm_num

/-- C5 amended: feeding N copies of a constant finite value v through the
per-tick orchestration yields mean = N * v / (N + 1) for every N between 1
and the window capacity 40; the mean equals v only when v = 0. -/
theorem C5_amended (x : ℝ) (N : ℕ) (h1 : 1 ≤ N) (h2 : N ≤ 40) :
    (runStats (List.replicate N (.num x))).mean
      = .num ((N : ℝ) * x / ((N : ℝ) + 1)) :=
  (runStats_replicate x N h2).2

/-- Witness for C5 amended at N = 2, v = 3. -/
theorem C5_witness :
    1 ≤ 2 ∧ 2 ≤ 40 ∧
    (runStats (List.replicate 2 (PFloat.num (3:ℝ)))).mean
      = PFloat.num (((2:ℕ) : ℝ) * 3 / (((2:ℕ) : ℝ) + 1)) :=
  ⟨by norm_num, by norm_num, C5_amended 3 2 (by norm_num) (by norm_num)⟩

/-- C2 counterexample: a NaN input is not rejected — the update proceeds,
the window gains the NaN entry and the mean becomes NaN, so the prior
state (mean 0) is not kept; and an Infinity input with flag false is
classified as anomalous, not non-anomalous. -/
theorem C2_counterexample :
    (statsTick initStats PFloat.nan).mean = PFloat.nan ∧
    PFloat.nan ≠ PFloat.num 0 ∧
    (statsTick initStats PFloat.nan).window = [PFloat.nan] ∧
    detect_anomalyF .inf (.num 0) false = true ∧
    detect_anomalyF .ninf (.num 0) false = true :=
  ⟨rfl, fun h => PFloat.noConfusion h, rfl, rfl, rfl⟩

/-- C2 amended: non-finite inputs are not rejected: the update runs and
changes the RunningStats state (for a NaN first input the window becomes
[nan], the mean becomes nan and the std takes the fallback 1). A NaN
sample is classified non-anomalous because comparisons with NaN are
false, but positive and negative Infinity are classified anomalous since
they lie outside the bounds. No per-tick error flag exists; no exception
is raised and the next tick is processed on the updated state. -/
theorem C2_amended :
    (∀ p : PFloat, detect_anomalyF .nan p false = false) ∧
    (statsTick initStats .nan).mean = PFloat.nan ∧
    (statsTick initStats .nan).std_dev = PFloat.num 1 ∧
    (statsTick initStats .nan).window = [PFloat.nan] ∧
    (∀ p : PFloat, detect_anomalyF .inf p false = true) ∧
    (∀ p : PFloat, detect_anomalyF .ninf p false = true) ∧
    (statsTick (statsTick initStats .nan) (.num 5)).window.length = 2 :=
  ⟨fun _ => rfl, rfl, rfl, rfl, fun _ => rfl, fun _ => rfl, rfl⟩

end AnomalyPy
